import Mathlib

/-!
Shallow embedding of the `secrust` crate (files `src/api.rs` and
`src/actions.rs`): an immovable zeroizing secret container whose content is
only reachable through reader/updater capability objects, together with its
example collaborators (a file-backed updater and AES-GCM encrypt/decrypt
readers).

Bytes are modelled as `Nat` values, with `< 256` hypotheses where byte-level
reasoning matters.  A Rust `[u8; N]` is a length-`N` list of bytes, a Rust
`String` a list of characters, a Rust `Vec<T>` a list of `T`.  Mutation
through a `&mut` borrow is embedded as explicit state passing.  External
collaborators (the `zeroize` crate's drop behaviour, the operating-system
file API, the `aes_gcm` AEAD and its RNG) are not part of the repository;
where a property depends on them they are modelled from the specification's
description of the collaborator interface, and each such definition carries
a doc comment saying so.
-/

/-- Rust `[u8; N]`: a fixed-length byte buffer, embedded as a list of bytes
of length `N`. -/
abbrev ByteArr (N : Nat) : Type := { l : List Nat // l.length = N }

/-- Rust `[u8; N]::default()` is `[0u8; N]`: the all-zero buffer. -/
instance (N : Nat) : Inhabited (ByteArr N) :=
  ⟨⟨List.replicate N 0, List.length_replicate N 0⟩⟩

/-- Rust `String`: a growable text buffer, embedded by its character
content. -/
structure RString : Type where
  chars : List Char

/-- Rust `String::default()` is the empty string. -/
instance : Inhabited RString := ⟨⟨[]⟩⟩

/-- Rust `Vec<T>`: a growable array, embedded by its element list. -/
structure RVec (T : Type) : Type where
  items : List T

/-- Rust `Vec::default()` is the empty vector. -/
instance (T : Type) : Inhabited (RVec T) := ⟨⟨[]⟩⟩

/-- Embedding of trait `Unsizeable` (src/api.rs): converts a sized container
type `Data` into its unsized view type `U` (`[u8] `, `str`, `[T]`).  In Rust
the mutable view `get_unsized_mut` aliases the container and mutation happens
in place; the pure embedding adds `write_view`, which writes a mutated view
back into the container — this extra member embeds the in-place mutation of
the borrowed view, it has no counterpart method in the source. -/
class Unsizeable (Data : Type) (U : outParam Type) where
  get_unsized : Data → U
  get_unsized_mut : Data → U
  write_view : Data → U → Data

/-- impl `Unsizeable for [u8; N]` (src/api.rs lines 92-102): the unsized view
of a byte array is the byte slice with the same content; both conversions
return `self`.  A `&mut [u8]` borrow of an array cannot change its length,
so writing back a view of a different length cannot happen in the source;
the embedding keeps the old buffer in that unreachable case. -/
instance instUnsizeableByteArr (N : Nat) : Unsizeable (ByteArr N) (List Nat) where
  get_unsized x := x.val
  get_unsized_mut x := x.val
  write_view x v := if h : v.length = N then ⟨v, h⟩ else x

/-- impl `Unsizeable for String` (src/api.rs lines 104-114): the unsized view
is the string slice with the same character content. -/
instance instUnsizeableRString : Unsizeable RString (List Char) where
  get_unsized s := s.chars
  get_unsized_mut s := s.chars
  write_view _ v := ⟨v⟩

/-- impl `Unsizeable for Vec<T>` (src/api.rs lines 116-126): the unsized view
is the element slice with the same content. -/
instance instUnsizeableRVec (T : Type) : Unsizeable (RVec T) (List T) where
  get_unsized v := v.items
  get_unsized_mut v := v.items
  write_view _ v := ⟨v⟩

/-- Embedding of trait `SecretReader<Data, A>` (src/api.rs lines 131-150): a
reader capability receives a borrowed, read-only unsized view of the secret
content and produces a result `A`.  The blanket impl for `Fn(&Data::Unsized)
-> A` means any plain function is a reader; `ofFn` below embeds it. -/
structure SecretReader (Data : Type) (U : Type) (A : Type) [Unsizeable Data U] where
  read : U → A

/-- Blanket impl `SecretReader<Data, A> for T: Fn(&Data::Unsized) -> A`
(src/api.rs lines 152-159). -/
def SecretReader.ofFn {Data U A : Type} [Unsizeable Data U] (f : U → A) :
    SecretReader Data U A := ⟨f⟩

/-- Embedding of trait `SecretUpdater<Data, A>` (src/api.rs lines 173-192): an
updater capability receives a borrowed, exclusive-mutable unsized view and
produces a result `A`.  The pure embedding of mutation through `&mut
Data::Unsized` is a function returning the mutated view together with the
result. -/
structure SecretUpdater (Data : Type) (U : Type) (A : Type) [Unsizeable Data U] where
  update : U → U × A

/-- Blanket impl `SecretUpdater<Data, A> for T: Fn(&mut Data::Unsized) -> A`
(src/api.rs lines 161-168). -/
def SecretUpdater.ofFn {Data U A : Type} [Unsizeable Data U] (f : U → U × A) :
    SecretUpdater Data U A := ⟨f⟩

/-- Embedding of `Secret<Data>` (src/api.rs lines 37-44): the container owns
a buffer of type `Data` wrapped in `Zeroizing` (zero-on-drop, modelled by
the lifecycle machine below) and a `PhantomPinned` marker, which has no
runtime content. -/
structure Secret (Data : Type) : Type where
  data : Data

/-- `Secret::new` (src/api.rs lines 46-53): a fresh secret holds
`Data::default()`. -/
def Secret.new {Data : Type} [Inhabited Data] : Secret Data := ⟨default⟩

/-- `Secret::_get` (src/api.rs lines 56-58): the pinned shared borrow of the
owned buffer. -/
def Secret._get {Data : Type} (s : Secret Data) : Data := s.data

/-- `Secret::read_with` (src/api.rs lines 67-73): literally
`reader.read(self._get().get_unsized())`.  The Rust receiver is
`Pin<&Secret<Data>>`, a shared borrow, so the call cannot change the
container. -/
def Secret.read_with {Data U A : Type} [Unsizeable Data U] (s : Secret Data)
    (reader : SecretReader Data U A) : A :=
  reader.read (Unsizeable.get_unsized s._get)

/-- `Secret::update_with` (src/api.rs lines 76-82): literally
`updater.update(self._get_mut().get_unsized_mut())`.  The Rust receiver is
`Pin<&mut Secret<Data>>`; the in-place mutation through the exclusive borrow
is embedded by returning the container with the mutated view written back,
next to the updater's result. -/
def Secret.update_with {Data U A : Type} [Unsizeable Data U] (s : Secret Data)
    (updater : SecretUpdater Data U A) : Secret Data × A :=
  let r := updater.update (Unsizeable.get_unsized_mut s.data)
  (⟨Unsizeable.write_view s.data r.1⟩, r.2)

/-! ## Lifecycle machine for zero-on-drop

The `#[derive(Clone)]` on `Secret` and the `Zeroizing<Data>` wrapper
(src/api.rs lines 9 and 39) give every instance — original or clone — its
own destructor, which overwrites the buffer with zeroes when the owning
scope ends on any exit path.  The destructor itself lives in the external
`zeroize` crate and Rust's drop-on-unwind is language semantics, so the
lifecycle is embedded as an explicit small-step machine over the set of
live instances, modelled from the spec: "the storage is deterministically
overwritten with zero bytes the moment its owning scope ends, on every exit
path" and "zeroization is unconditional and happens exactly once per live
instance". -/

/-- One `Secret<[u8; N]>` instance as the lifecycle machine sees it: its
current buffer, how many times its drop glue has zeroized it, and whether
it is still live. -/
structure Inst : Type where
  buf : List Nat
  zeroCount : Nat
  alive : Bool
deriving DecidableEq

/-- The instances a scope owns, in creation order; an instance's id is its
index. -/
abbrev Store : Type := List Inst

/-- Modelled from the spec: the `Zeroizing` drop glue.  Running the
destructor overwrites the whole backing buffer with zero bytes, counts one
zeroization event, and ends the instance's lifetime. -/
def zeroizeDrop (i : Inst) : Inst :=
  ⟨List.replicate i.buf.length 0, i.zeroCount + 1, false⟩

/-- The actions a scope body can perform on its secrets: construct
(`Secret::new`), clone (`#[derive(Clone)]`), update or read through a
capability, or drop an instance early.  Rust's borrow discipline makes
capability calls and drops on an already-dropped instance impossible, so
the machine ignores them. -/
inductive ScopeAct : Type where
  | newInst (size : Nat)
  | cloneInst (src : Nat)
  | updateInst (id : Nat) (u : List Nat → List Nat)
  | readInst (id : Nat)
  | dropInst (id : Nat)

/-- One machine step.  `newInst` appends a fresh default-initialized
instance; `cloneInst` appends an independent copy of a live instance with
its own zero-on-drop obligation; `updateInst` rewrites a live instance's
buffer through the updater; `readInst` has no effect on the store (the
reader only gets a read-only view); `dropInst` runs the drop glue of a
live instance. -/
def stepA (st : Store) : ScopeAct → Store
  | .newInst n => st ++ [⟨List.replicate n 0, 0, true⟩]
  | .cloneInst src =>
    match st.get? src with
    | some i => if i.alive then st ++ [⟨i.buf, 0, true⟩] else st
    | none => st
  | .updateInst id u =>
    match st.get? id with
    | some i => if i.alive then st.set id ⟨u i.buf, i.zeroCount, true⟩ else st
    | none => st
  | .readInst _ => st
  | .dropInst id =>
    match st.get? id with
    | some i => if i.alive then st.set id (zeroizeDrop i) else st
    | none => st

/-- Running a scope body: fold the actions over the store. -/
def runActs (st : Store) (acts : List ScopeAct) : Store :=
  acts.foldl stepA st

/-- Modelled from the spec: when the owning scope ends — normally or by
unwinding — Rust runs the destructor of every still-live instance exactly
once; already-dropped instances are not dropped again. -/
def dropAll (st : Store) : Store :=
  st.map (fun i => if i.alive then zeroizeDrop i else i)

/-- A whole scope execution: starting from no instances, run the first `k`
actions of the body (`k ≥ acts.length` is a normal exit; `k < acts.length`
models an early return or a panic propagating out of a capability call
after the `k`-th action), then drop everything still live. -/
def runScope (acts : List ScopeAct) (k : Nat) : Store :=
  dropAll (runActs [] (acts.take k))

/-! ## Embedding of src/actions.rs

The collaborators use three external facilities: the operating-system file
API (`File::open`, `Read::read`), the `aes_gcm` AEAD, and its `OsRng`
nonce source.  None of them is code of this repository, so they are
modelled from the spec's collaborator interface (spec sections 4.4 and 6);
the repository's own code — `UpdateSecretFromFile::update`, `Cipher::read`,
`Decipher::read` — is embedded faithfully on top of them. -/

/-- Rust `std::io::Error`, opaque here: only the success/failure split
matters. -/
abbrev IoError : Type := Unit

/-- Rust `aes_gcm::Error`, a unit-like opaque struct. -/
abbrev GcmError : Type := Unit

/-- Modelled from the spec: the file system behind `File::open`, as a map
from paths to file contents; `none` is a path whose open fails. -/
abbrev FileSys : Type := String → Option (List Nat)

/-- `UpdateSecretFromFile` (src/actions.rs line 15): holds the `PathBuf` to
read from. -/
structure UpdateSecretFromFile : Type where
  path : String

/-- `UpdateSecretFromFile::update` (src/actions.rs lines 17-22), embedded
over an explicit file system.  `File::open(&self.0)?` propagates an open
failure unchanged; a single `file.read(sec)` call is modelled from the
spec ("reads at most the destination buffer's length into it, reports the
number of bytes actually read") as filling the buffer with
`min (file length) (buffer length)` bytes from the file's front, leaving
the rest of the buffer unchanged, and reporting that count. -/
def UpdateSecretFromFile.update (fs : FileSys) (upd : UpdateSecretFromFile)
    (sec : List Nat) : List Nat × Except IoError Nat :=
  match fs upd.path with
  | none => (sec, .error ())
  | some content =>
    let n := min content.length sec.length
    (content.take n ++ sec.drop n, .ok n)

/-- `UpdateSecretFromFile` as a `SecretUpdater<[u8; N], io::Result<usize>>`
(src/actions.rs line 17). -/
def UpdateSecretFromFile.updater (fs : FileSys) (upd : UpdateSecretFromFile)
    (N : Nat) : SecretUpdater (ByteArr N) (List Nat) (Except IoError Nat) :=
  ⟨fun sec => UpdateSecretFromFile.update fs upd sec⟩

/-- Embedding of `<&Key<Aes256Gcm>>::from(&[u8])` (src/actions.rs lines 30
and 42, `sec.into()`): the conversion of a byte slice into an AES-256 key
reference succeeds exactly when the slice has the key length 32, and
panics otherwise; the panic is embedded as `none`. -/
def keyFromSlice (sec : List Nat) : Option (List Nat) :=
  if sec.length = 32 then some sec else none

/-- Modelled from the spec: the keystream byte the external AEAD derives
from key, nonce and position for encrypting/decrypting the byte at that
position (spec section 6: "given a 256-bit key view, a 96-bit nonce, and a
plaintext byte sequence, produce ciphertext-plus-authentication-tag").
Always a byte. -/
def keystream (key nonce : List Nat) (i : Nat) : Nat :=
  (key.sum * 131 + nonce.sum * 31 + i * 17 + 7) % 256

/-- XOR a byte stream into a buffer, position by position: the body of the
modelled AEAD's encryption and decryption. -/
def xorStream (ks : Nat → Nat) : Nat → List Nat → List Nat
  | _, [] => []
  | i, b :: rest => (b ^^^ ks i) :: xorStream ks (i + 1) rest

/-- Modelled from the spec: the authentication tag the external AEAD
computes over key, nonce and ciphertext.  A single byte here; any change
of one ciphertext byte (to a different byte value) changes it. -/
def aeadTag (key nonce ct : List Nat) : Nat :=
  (ct.sum + key.sum * 3 + nonce.sum) % 256

/-- Modelled from the spec: the external authenticated encryption
(`cipher.encrypt`): ciphertext of the plaintext's length followed by the
authentication tag. -/
def aeadEncrypt (key nonce pt : List Nat) : List Nat :=
  let ct := xorStream (keystream key nonce) 0 pt
  ct ++ [aeadTag key nonce ct]

/-- Modelled from the spec: the external authenticated decryption
(`cipher.decrypt`): split off the tag, recompute it over the ciphertext,
fail verification on any mismatch, otherwise invert the keystream. -/
def aeadDecrypt (key nonce enc : List Nat) : Except GcmError (List Nat) :=
  match enc.getLast? with
  | none => .error ()
  | some tag =>
    let ct := enc.dropLast
    if tag = aeadTag key nonce ct then .ok (xorStream (keystream key nonce) 0 ct)
    else .error ()

/-- `Cipher` (src/actions.rs line 24): holds the plaintext `Vec<u8>` to
encrypt. -/
structure Cipher : Type where
  msg : List Nat

/-- `Cipher::read` (src/actions.rs lines 26-36), embedded with the nonce
drawn from `OsRng` passed explicitly.  The key conversion panics (is
`none`) unless the secret view has length 32; then the plaintext is
authenticated-encrypted under the fresh nonce and `(ciphertext-with-tag,
nonce)` is returned. -/
def Cipher.read (c : Cipher) (nonce : List Nat) (sec : List Nat) :
    Option (Except GcmError (List Nat × List Nat)) :=
  match keyFromSlice sec with
  | none => none
  | some key => some (.ok (aeadEncrypt key nonce c.msg, nonce))

/-- `Cipher` as a `SecretReader<[u8; N], Result<(Vec<u8>, Nonce), Error>>`
(src/actions.rs line 26), at the length-32 instantiation the test uses. -/
def Cipher.reader (c : Cipher) (nonce : List Nat) (N : Nat) :
    SecretReader (ByteArr N) (List Nat)
      (Option (Except GcmError (List Nat × List Nat))) :=
  ⟨fun sec => Cipher.read c nonce sec⟩

/-- `Decipher` (src/actions.rs line 38): holds a previously produced
`(ciphertext-with-tag, nonce)` pair. -/
structure Decipher : Type where
  enc : List Nat
  nonce : List Nat

/-- `Decipher::read` (src/actions.rs lines 40-47): the same panicking key
conversion, then authenticated decryption with the stored pair; a
verification failure is the capability's own error, passed through. -/
def Decipher.read (d : Decipher) (sec : List Nat) :
    Option (Except GcmError (List Nat)) :=
  match keyFromSlice sec with
  | none => none
  | some key => some (aeadDecrypt key d.nonce d.enc)

/-- `Decipher` as a `SecretReader<[u8; N], Result<Vec<u8>, Error>>`
(src/actions.rs line 40). -/
def Decipher.reader (d : Decipher) (N : Nat) :
    SecretReader (ByteArr N) (List Nat) (Option (Except GcmError (List Nat))) :=
  ⟨fun sec => Decipher.read d sec⟩

/-- The per-instance lifecycle invariant: while live, an instance has never
been zeroized; once dead, it has been zeroized exactly once and its buffer
is all zeroes. -/
def InstOk (i : Inst) : Prop :=
  (i.alive = true ∧ i.zeroCount = 0) ∨
    (i.alive = false ∧ i.zeroCount = 1 ∧ i.buf = List.replicate i.buf.length 0)

/-! ## Helper lemmas -/

theorem xorStream_length (ks : Nat → Nat) : ∀ (i : Nat) (l : List Nat),
    (xorStream ks i l).length = l.length := by
  intro i l
  induction l generalizing i with
  | nil => rfl
  | cons b rest ih => simp [xorStream, ih]

theorem xorStream_xorStream (ks : Nat → Nat) : ∀ (i : Nat) (l : List Nat),
    xorStream ks i (xorStream ks i l) = l := by
  intro i l
  induction l generalizing i with
  | nil => rfl
  | cons b rest ih =>
    simp only [xorStream, ih]
    rw [Nat.xor_assoc, Nat.xor_self, Nat.xor_zero]

theorem mem_xorStream_lt (ks : Nat → Nat) (hks : ∀ i, ks i < 256) :
    ∀ (i : Nat) (l : List Nat), (∀ b ∈ l, b < 256) →
    ∀ b ∈ xorStream ks i l, b < 256 := by
  intro i l
  induction l generalizing i with
  | nil => intro _ b hb; simp [xorStream] at hb
  | cons c rest ih =>
    intro hl b hb
    simp only [xorStream, List.mem_cons] at hb
    rcases hb with hb | hb
    · subst hb
      have hc : c < 256 := hl c (List.mem_cons_self c rest)
      have h256 : (256 : Nat) = 2 ^ 8 := by norm_num
      rw [h256]
      exact Nat.xor_lt_two_pow (h256 ▸ hc) (h256 ▸ hks i)
    · exact ih (i + 1) (fun x hx => hl x (List.mem_cons_of_mem c hx)) b hb

theorem keystream_lt (key nonce : List Nat) (i : Nat) : keystream key nonce i < 256 :=
  Nat.mod_lt _ (by norm_num)

theorem sum_set_add : ∀ (l : List Nat) (j v : Nat), j < l.length →
    (l.set j v).sum + l.getD j 0 = l.sum + v := by
  intro l
  induction l with
  | nil => intro j v h; simp at h
  | cons b rest ih =>
    intro j v h
    cases j with
    | zero => simp [List.set]; omega
    | succ j =>
      simp only [List.set, List.sum_cons, List.getD_cons_succ]
      have := ih j v (by simpa using Nat.lt_of_succ_lt_succ h)
      omega

theorem getD_mem_of_lt (l : List Nat) (j : Nat) (h : j < l.length) : l.getD j 0 ∈ l := by
  rw [List.getD_eq_getElem l 0 h]
  exact List.getElem_mem h

theorem two_pow_lt_256 (k : Nat) (hk : k < 8) : (2 : Nat) ^ k < 256 := by
  calc (2 : Nat) ^ k < 2 ^ 8 := Nat.pow_lt_pow_right one_lt_two hk
  _ = 256 := by norm_num

theorem xor_two_pow_ne (b k : Nat) : b ^^^ 2 ^ k ≠ b := by
  intro h
  have h0 : b ^^^ (b ^^^ 2 ^ k) = b ^^^ b := by rw [h]
  rw [← Nat.xor_assoc, Nat.xor_self, Nat.zero_xor] at h0
  have hpos : 0 < 2 ^ k := Nat.pos_pow_of_pos k (by norm_num)
  omega

theorem aeadTag_lt (key nonce ct : List Nat) : aeadTag key nonce ct < 256 :=
  Nat.mod_lt _ (by norm_num)

theorem aeadTag_set_ne (key nonce ct : List Nat) (j k : Nat)
    (hct : ∀ b ∈ ct, b < 256) (hj : j < ct.length) (hk : k < 8) :
    aeadTag key nonce (ct.set j (ct.getD j 0 ^^^ 2 ^ k)) ≠ aeadTag key nonce ct := by
  intro heq
  have hb : ct.getD j 0 < 256 := hct _ (getD_mem_of_lt ct j hj)
  have h256 : (256 : Nat) = 2 ^ 8 := by norm_num
  have hb2 : ct.getD j 0 ^^^ 2 ^ k < 256 := by
    rw [h256]
    exact Nat.xor_lt_two_pow (h256 ▸ hb) (h256 ▸ two_pow_lt_256 k hk)
  have hne : ct.getD j 0 ^^^ 2 ^ k ≠ ct.getD j 0 := xor_two_pow_ne _ k
  have hsum : (ct.set j (ct.getD j 0 ^^^ 2 ^ k)).sum + ct.getD j 0
      = ct.sum + (ct.getD j 0 ^^^ 2 ^ k) := sum_set_add ct j _ hj
  simp only [aeadTag] at heq
  omega

theorem instOk_zeroizeDrop (i : Inst) (h : i.zeroCount = 0) : InstOk (zeroizeDrop i) := by
  right
  refine ⟨rfl, by simp [zeroizeDrop, h], ?_⟩
  simp [zeroizeDrop]

theorem mem_of_get?_eq_some {st : Store} {n : Nat} {i : Inst}
    (h : st.get? n = some i) : i ∈ st := by
  obtain ⟨hl, hg⟩ := List.get?_eq_some.mp h
  exact hg ▸ List.get_mem st _ _

theorem instOk_stepA (a : ScopeAct) (st : Store) (hst : ∀ i ∈ st, InstOk i) :
    ∀ i ∈ stepA st a, InstOk i := by
  cases a with
  | newInst n =>
    intro i hi
    rcases List.mem_append.mp hi with h | h
    · exact hst i h
    · simp at h
      subst h
      exact Or.inl ⟨rfl, rfl⟩
  | cloneInst src =>
    intro i hi
    cases hsrc : st.get? src with
    | none => simp only [stepA, hsrc] at hi; exact hst i hi
    | some i0 =>
      simp only [stepA, hsrc] at hi
      by_cases ha : i0.alive = true
      · rw [if_pos ha] at hi
        rcases List.mem_append.mp hi with h | h
        · exact hst i h
        · simp at h
          subst h
          exact Or.inl ⟨rfl, rfl⟩
      · rw [if_neg ha] at hi
        exact hst i hi
  | updateInst n u =>
    intro i hi
    cases hsrc : st.get? n with
    | none => simp only [stepA, hsrc] at hi; exact hst i hi
    | some i0 =>
      simp only [stepA, hsrc] at hi
      by_cases ha : i0.alive = true
      · rw [if_pos ha] at hi
        rcases List.mem_or_eq_of_mem_set hi with h | h
        · exact hst i h
        · subst h
          have h0 : InstOk i0 := hst i0 (mem_of_get?_eq_some hsrc)
          rcases h0 with ⟨_, hz⟩ | ⟨hd, _⟩
          · exact Or.inl ⟨rfl, hz⟩
          · rw [hd] at ha; exact absurd ha (by simp)
      · rw [if_neg ha] at hi
        exact hst i hi
  | readInst n => exact hst
  | dropInst n =>
    intro i hi
    cases hsrc : st.get? n with
    | none => simp only [stepA, hsrc] at hi; exact hst i hi
    | some i0 =>
      simp only [stepA, hsrc] at hi
      by_cases ha : i0.alive = true
      · rw [if_pos ha] at hi
        rcases List.mem_or_eq_of_mem_set hi with h | h
        · exact hst i h
        · subst h
          have h0 : InstOk i0 := hst i0 (mem_of_get?_eq_some hsrc)
          rcases h0 with ⟨_, hz⟩ | ⟨hd, _⟩
          · exact instOk_zeroizeDrop i0 hz
          · rw [hd] at ha; exact absurd ha (by simp)
      · rw [if_neg ha] at hi
        exact hst i hi

theorem instOk_runActs (acts : List ScopeAct) : ∀ (st : Store),
    (∀ i ∈ st, InstOk i) → ∀ i ∈ runActs st acts, InstOk i := by
  induction acts with
  | nil => intro st hst; exact hst
  | cons a rest ih =>
    intro st hst
    exact ih (stepA st a) (instOk_stepA a st hst)

theorem dropAll_final (st : Store) (hst : ∀ i ∈ st, InstOk i) :
    ∀ i ∈ dropAll st, i.zeroCount = 1 ∧ i.alive = false ∧
      i.buf = List.replicate i.buf.length 0 := by
  intro i hi
  rw [dropAll] at hi
  obtain ⟨j, hj, hij⟩ := List.mem_map.mp hi
  rcases hst j hj with ⟨ha, hz⟩ | ⟨hd, hz, hbuf⟩
  · rw [ha] at hij
    simp only [if_true] at hij
    subst hij
    exact ⟨by simp [zeroizeDrop, hz], rfl, by simp [zeroizeDrop]⟩
  · rw [hd] at hij
    simp only [Bool.false_eq_true, if_false] at hij
    subst hij
    exact ⟨hz, hd, hbuf⟩

theorem aeadDecrypt_aeadEncrypt (key nonce pt : List Nat) :
    aeadDecrypt key nonce (aeadEncrypt key nonce pt) = Except.ok pt := by
  simp [aeadEncrypt, aeadDecrypt, List.getLast?_concat, List.dropLast_concat,
    xorStream_xorStream]

theorem aeadDecrypt_flip_ct (key nonce ct : List Nat) (j k : Nat)
    (hct : ∀ b ∈ ct, b < 256) (hj : j < ct.length) (hk : k < 8) :
    aeadDecrypt key nonce
        (ct.set j (ct.getD j 0 ^^^ 2 ^ k) ++ [aeadTag key nonce ct])
      = Except.error () := by
  have hne : aeadTag key nonce ct
      ≠ aeadTag key nonce (ct.set j (ct.getD j 0 ^^^ 2 ^ k)) :=
    fun h => aeadTag_set_ne key nonce ct j k hct hj hk h.symm
  simp only [aeadDecrypt, List.getLast?_concat, List.dropLast_concat]
  rw [if_neg hne]

theorem aeadDecrypt_flip_tag (key nonce ct : List Nat) (k : Nat) :
    aeadDecrypt key nonce (ct ++ [aeadTag key nonce ct ^^^ 2 ^ k])
      = Except.error () := by
  have hne : aeadTag key nonce ct ^^^ 2 ^ k ≠ aeadTag key nonce ct :=
    xor_two_pow_ne _ k
  simp only [aeadDecrypt, List.getLast?_concat, List.dropLast_concat]
  rw [if_neg hne]

/-! ## Claim theorems -/

/-- C2: for every newly constructed (then pinned) `Secret<[u8; N]>`,
`read_with` with any reader, invoked before any update, presents the reader
a view whose content is the `Data` type's deterministic default (zero)
value — the all-zero byte buffer. -/
theorem read_before_update_yields_default_zero (N : Nat) (A : Type)
    (reader : SecretReader (ByteArr N) (List Nat) A) :
    (Secret.new : Secret (ByteArr N)).read_with reader
      = reader.read (List.replicate N 0) := rfl

/-- C3: for every updater `U` and pinned `Secret<[u8; N]>`, after
`update_with U` an immediately following `read_with` with an identity-style
reader returns exactly the content `U` wrote into the borrowed mutable view
(`hlen` records that a `&mut [u8]` borrow cannot change the array length,
which holds for every updater expressible in the source). -/
theorem read_after_update_returns_written_content (N : Nat) (A : Type)
    (s : Secret (ByteArr N)) (u : List Nat → List Nat × A)
    (hlen : (u s.data.val).1.length = N) :
    ((s.update_with (SecretUpdater.ofFn u)).1).read_with
        (SecretReader.ofFn (fun v => v))
      = (u s.data.val).1 := by
  simp only [Secret.update_with, Secret.read_with, Secret._get,
    SecretUpdater.ofFn, SecretReader.ofFn, Unsizeable.get_unsized,
    Unsizeable.get_unsized_mut, Unsizeable.write_view, instUnsizeableByteArr]
  rw [dif_pos hlen]

/-- Witness for C3 at a concrete instance: updating the one-byte secret
`[3]` with the successor map and then reading it back with the identity
reader yields `[4]`. -/
theorem read_after_update_returns_written_content_witness :
    ((Secret.mk (⟨[3], rfl⟩ : ByteArr 1)).update_with
        (SecretUpdater.ofFn (fun v => (v.map (fun b => b + 1), ())))).1.read_with
        (SecretReader.ofFn (fun v => v))
      = [4] :=
  read_after_update_returns_written_content 1 Unit ⟨⟨[3], rfl⟩⟩
    (fun v => (v.map (fun b => b + 1), ())) (by decide)

/-- C4: `read_with` returns exactly the reader applied to the borrowed view
and `update_with` returns exactly the updater applied to the borrowed
mutable view; the container introduces no failure of its own, and a failure
value produced by the capability (an `Except.error`) is returned unmodified
— no retry, recovery, or transformation. -/
theorem capability_results_passed_through_unchanged (Data U A : Type)
    [Unsizeable Data U] (s : Secret Data) (r : SecretReader Data U A)
    (u : SecretUpdater Data U A) :
    s.read_with r = r.read (Unsizeable.get_unsized s.data)
    ∧ (s.update_with u).2 = (u.update (Unsizeable.get_unsized_mut s.data)).2
    ∧ ∀ (E B : Type) (re : SecretReader Data U (Except E B)) (e : E),
        (s.read_with re = Except.error e
          ↔ re.read (Unsizeable.get_unsized s.data) = Except.error e) :=
  ⟨rfl, rfl, fun _ _ _ _ => Iff.rfl⟩

/-- C5: a read capability call leaves the container's content unchanged: a
`readInst` step of the lifecycle machine is the identity on the store (the
reader only receives a read-only view), and any sequence of read actions
leaves every instance's content exactly as it was before. -/
theorem read_with_leaves_content_unchanged :
    (∀ (st : Store) (n : Nat), stepA st (ScopeAct.readInst n) = st)
    ∧ ∀ (st : Store) (acts : List ScopeAct),
        (∀ a ∈ acts, ∃ n, a = ScopeAct.readInst n) → runActs st acts = st := by
  constructor
  · intro st n; rfl
  · intro st acts
    induction acts with
    | nil => intro _; rfl
    | cons a rest ih =>
      intro h
      obtain ⟨n, hn⟩ := h a (List.mem_cons_self a rest)
      subst hn
      exact ih (fun b hb => h b (List.mem_cons_of_mem _ hb))

/-- Witness for C5 at a concrete instance: reading a one-instance store
leaves it untouched. -/
theorem read_with_leaves_content_unchanged_witness :
    runActs [⟨[9], 0, true⟩] [ScopeAct.readInst 0] = [⟨[9], 0, true⟩] :=
  read_with_leaves_content_unchanged.2 [⟨[9], 0, true⟩] [ScopeAct.readInst 0]
    (fun a ha => ⟨0, by simpa using ha⟩)

/-- C8: for the file-backed updater applied through `update_with` to a
`Secret<[u8; N]>`, a successful update returns `Ok n` with `n ≤ N` — it
never reads more bytes than the destination holds — and when the file is
shorter than the buffer the short read is reported as a success carrying
the actual count, not as a failure. -/
theorem file_update_reports_bounded_byte_count (fs : FileSys)
    (upd : UpdateSecretFromFile) (N : Nat) (s : Secret (ByteArr N)) :
    (∀ n : Nat, (s.update_with (upd.updater fs N)).2 = Except.ok n → n ≤ N)
    ∧ ∀ content : List Nat, fs upd.path = some content →
        (s.update_with (upd.updater fs N)).2
          = Except.ok (min content.length N) := by
  have hdata : s.data.val.length = N := s.data.property
  constructor
  · intro n hn
    simp only [Secret.update_with, UpdateSecretFromFile.updater,
      UpdateSecretFromFile.update, Unsizeable.get_unsized_mut,
      instUnsizeableByteArr] at hn
    cases hfs : fs upd.path with
    | none => simp [hfs] at hn
    | some content =>
      simp only [hfs] at hn
      have h' := Except.ok.inj hn
      omega
  · intro content hfs
    simp only [Secret.update_with, UpdateSecretFromFile.updater,
      UpdateSecretFromFile.update, Unsizeable.get_unsized_mut,
      instUnsizeableByteArr, hfs, hdata]

/-- Witness for C8 at a concrete instance: a two-byte file read into a
three-byte secret reports the short read `Ok 2`. -/
theorem file_update_reports_bounded_byte_count_witness :
    ((Secret.new : Secret (ByteArr 3)).update_with
        (UpdateSecretFromFile.updater (fun _ => some [7, 7]) ⟨"key"⟩ 3)).2
      = Except.ok (min 2 3) :=
  (file_update_reports_bounded_byte_count (fun _ => some [7, 7]) ⟨"key"⟩ 3
    Secret.new).2 [7, 7] rfl

/-- C9: the unsizing conversions of the three supported sized container
types (fixed-length byte array, text buffer, growable array) are total pure
functions whose result carries exactly the same element content as the
input — the conversion is the identity on content, for both the shared and
the mutable view. -/
theorem get_unsized_is_identity_on_content :
    (∀ (N : Nat) (x : ByteArr N),
      Unsizeable.get_unsized x = x.val ∧ Unsizeable.get_unsized_mut x = x.val)
    ∧ (∀ s : RString,
      Unsizeable.get_unsized s = s.chars
        ∧ Unsizeable.get_unsized_mut s = s.chars)
    ∧ ∀ (T : Type) (v : RVec T),
      Unsizeable.get_unsized v = v.items
        ∧ Unsizeable.get_unsized_mut v = v.items :=
  ⟨fun _ _ => ⟨rfl, rfl⟩, fun _ => ⟨rfl, rfl⟩, fun _ _ => ⟨rfl, rfl⟩⟩

/-- C10: for a secret view of length `N`, the key conversion inside
`Cipher::read` and `Decipher::read` succeeds — and the panic branch is
avoided — exactly when `N = 32`, the AES-256 key size; for every other `N`
both readers abort at the conversion (embedded as `none`). -/
theorem key_conversion_succeeds_iff_length_32 (N : Nat) (sec : List Nat)
    (hN : sec.length = N) (c : Cipher) (nonce : List Nat) (d : Decipher) :
    ((Cipher.read c nonce sec).isSome ↔ N = 32)
    ∧ ((Decipher.read d sec).isSome ↔ N = 32) := by
  subst hN
  by_cases h : sec.length = 32 <;>
    constructor <;> simp [Cipher.read, Decipher.read, keyFromSlice, h]

/-- Witness for C10 at a concrete instance: for a 32-byte secret both
readers pass the key conversion. -/
theorem key_conversion_succeeds_iff_length_32_witness :
    ((Cipher.read ⟨[]⟩ [] (List.replicate 32 0)).isSome ↔ (32 : Nat) = 32)
    ∧ ((Decipher.read ⟨[], []⟩ (List.replicate 32 0)).isSome ↔ (32 : Nat) = 32) :=
  key_conversion_succeeds_iff_length_32 32 (List.replicate 32 0) (by decide)
    ⟨[]⟩ [] ⟨[], []⟩

/-- C1: in every scope execution — whatever the body's actions and wherever
it exits (normal exit, early return, or a failure propagating out of a
capability call, modelled by cutting the body at any point `k`) — every
instance ends with its buffer overwritten by zeroes and a zeroization count
of exactly one, at destruction; moreover cloning only appends a fresh
independent instance (it never touches existing ones), and dropping one
instance leaves every other instance untouched, so each clone carries its
own independent zero-on-drop obligation. -/
theorem secret_zeroized_exactly_once_on_drop :
    (∀ (acts : List ScopeAct) (k : Nat), ∀ i ∈ runScope acts k,
      i.zeroCount = 1 ∧ i.alive = false
        ∧ i.buf = List.replicate i.buf.length 0)
    ∧ (∀ (st : Store) (src : Nat),
        ∃ ext, stepA st (ScopeAct.cloneInst src) = st ++ ext)
    ∧ ∀ (st : Store) (n j : Nat), j ≠ n →
        (stepA st (ScopeAct.dropInst n)).get? j = st.get? j := by
  refine ⟨?_, ?_, ?_⟩
  · intro acts k i hi
    exact dropAll_final _ (instOk_runActs (acts.take k) [] (by simp)) i hi
  · intro st src
    cases hsrc : st.get? src with
    | none => exact ⟨[], by simp only [stepA, hsrc]; simp⟩
    | some i0 =>
      by_cases ha : i0.alive = true
      · exact ⟨[⟨i0.buf, 0, true⟩], by simp only [stepA, hsrc]; rw [if_pos ha]⟩
      · exact ⟨[], by simp only [stepA, hsrc]; rw [if_neg ha]; simp⟩
  · intro st n j hne
    cases hsrc : st.get? n with
    | none => simp only [stepA, hsrc]
    | some i0 =>
      by_cases ha : i0.alive = true
      · simp only [stepA, hsrc, ha, if_true]
        simp [List.get?_eq_getElem?, List.getElem?_set_ne (fun h => hne h.symm)]
      · simp only [stepA, hsrc]
        rw [if_neg ha]

/-- Witness for C1 at a concrete instance: a scope that constructs one
secret and clones it ends with both instances zeroized exactly once. -/
theorem secret_zeroized_exactly_once_on_drop_witness :
    (⟨[0, 0], 1, false⟩ : Inst).zeroCount = 1
      ∧ (⟨[0, 0], 1, false⟩ : Inst).alive = false
      ∧ (⟨[0, 0], 1, false⟩ : Inst).buf
        = List.replicate (⟨[0, 0], 1, false⟩ : Inst).buf.length 0 :=
  secret_zeroized_exactly_once_on_drop.1
    [ScopeAct.newInst 2, ScopeAct.cloneInst 0] 2 ⟨[0, 0], 1, false⟩ (by decide)

/-- C6: round trip.  For every plaintext `P` (non-empty, at most 4 KiB),
every 32-byte key content `K` and every nonce the RNG hands the encrypt
reader, reading the secret with `Cipher P` yields `Ok (ciphertext-with-tag,
nonce)`, and reading the same secret with `Decipher` over that pair
succeeds and returns exactly `P`. -/
theorem cipher_decipher_round_trip (P : List Nat) (K : ByteArr 32)
    (nonce : List Nat) (_hne : P ≠ []) (_hlen : P.length ≤ 4096) :
    (Secret.mk K).read_with (Cipher.reader ⟨P⟩ nonce 32)
      = some (Except.ok (aeadEncrypt K.val nonce P, nonce))
    ∧ (Secret.mk K).read_with
        (Decipher.reader ⟨aeadEncrypt K.val nonce P, nonce⟩ 32)
      = some (Except.ok P) := by
  have hkey : keyFromSlice K.val = some K.val := by
    simp [keyFromSlice, K.property]
  constructor
  · simp only [Secret.read_with, Secret._get, Cipher.reader, Cipher.read,
      Unsizeable.get_unsized, instUnsizeableByteArr, hkey]
  · simp only [Secret.read_with, Secret._get, Decipher.reader, Decipher.read,
      Unsizeable.get_unsized, instUnsizeableByteArr, hkey,
      aeadDecrypt_aeadEncrypt]

/-- Witness for C6 at a concrete instance: the one-byte plaintext `[1]`
under the all-zero 32-byte key survives the encrypt/decrypt round trip. -/
theorem cipher_decipher_round_trip_witness :
    (Secret.mk (⟨List.replicate 32 0, List.length_replicate 32 0⟩ : ByteArr 32)).read_with
        (Decipher.reader
          ⟨aeadEncrypt (List.replicate 32 0) [5] [1], [5]⟩ 32)
      = some (Except.ok [1]) :=
  (cipher_decipher_round_trip [1]
    ⟨List.replicate 32 0, List.length_replicate 32 0⟩ [5]
    (by decide) (by decide)).2

/-- C7: tamper detection.  For every `(ciphertext-with-tag, nonce)` pair the
encrypt reader produces under a 32-byte key `K` from a byte plaintext,
flipping any single bit (position `j`, bit `k`) of the ciphertext-with-tag
and invoking the decrypt reader with the same key and nonce yields a
verification failure, never a success with altered plaintext. -/
theorem decipher_rejects_single_bit_flip (P K nonce : List Nat) (j k : Nat)
    (hP : ∀ b ∈ P, b < 256) (hK : K.length = 32) (hk : k < 8)
    (hj : j < (aeadEncrypt K nonce P).length) :
    Decipher.read
        ⟨(aeadEncrypt K nonce P).set j
          ((aeadEncrypt K nonce P).getD j 0 ^^^ 2 ^ k), nonce⟩ K
      = some (Except.error ()) := by
  have hkey : keyFromSlice K = some K := by simp [keyFromSlice, hK]
  have hctb : ∀ b ∈ xorStream (keystream K nonce) 0 P, b < 256 :=
    mem_xorStream_lt _ (keystream_lt K nonce) 0 P hP
  have hblob : aeadEncrypt K nonce P
      = xorStream (keystream K nonce) 0 P
        ++ [aeadTag K nonce (xorStream (keystream K nonce) 0 P)] := rfl
  rw [hblob] at hj ⊢
  rcases Nat.lt_or_ge j (xorStream (keystream K nonce) 0 P).length with hcase | hcase
  · rw [List.getD_append _ _ _ _ hcase, List.set_append_left _ _ hcase]
    simp only [Decipher.read, hkey]
    rw [aeadDecrypt_flip_ct K nonce _ j k hctb hcase hk]
  · have hj' : j = (xorStream (keystream K nonce) 0 P).length := by
      simp only [List.length_append, List.length_cons, List.length_nil] at hj
      omega
    subst hj'
    rw [List.set_append_right _ _ hcase, List.getD_append_right _ _ _ _ hcase]
    simp only [Nat.sub_self, List.getD_cons_zero, List.set_cons_zero]
    simp only [Decipher.read, hkey]
    rw [aeadDecrypt_flip_tag]

/-- Witness for C7 at a concrete instance: flipping the lowest bit of the
first blob byte of an encryption of `[1]` under the all-zero key makes
decryption fail. -/
theorem decipher_rejects_single_bit_flip_witness :
    Decipher.read
        ⟨(aeadEncrypt (List.replicate 32 0) [] [1]).set 0
          ((aeadEncrypt (List.replicate 32 0) [] [1]).getD 0 0 ^^^ 2 ^ 0), []⟩
        (List.replicate 32 0)
      = some (Except.error ()) :=
  decipher_rejects_single_bit_flip [1] (List.replicate 32 0) [] 0 0
    (by decide) (by decide) (by decide) (by decide)
